import Mathlib

/-!
Verification of the kkdash monitor (`monitor.py`) against its specification.

The probes shell out to OS utilities and read `/proc` files; those external
reads are passed to the embedded functions as explicit `Except`-valued inputs
(`.error e` models a raised exception carrying the text `e`).  Machine floats
are modelled as exact rationals (`/proc/stat` and `/proc/meminfo` carry
integer counters, so all sums below are exact).
-/

set_option maxRecDepth 8192

attribute [local semireducible] Rat.add Rat.sub Rat.mul Rat.inv

deriving instance DecidableEq for Except

/-- Characters treated as whitespace by Python's `str.split()` / `str.strip()`
and by the `\s` class of the regular expressions in `get_ufw_stats`
(ASCII subset, which covers `/proc` contents and the kernel log). -/
def isWsB (c : Char) : Bool :=
  c == ' ' || c == '\t' || c == '\n' || c == '\r' || c == '\x0b' || c == '\x0c'

/-- Helper for `pySplit`: the first argument is the current word, reversed. -/
def splitWsAux : List Char → List Char → List String
  | cur, [] => if cur.isEmpty then [] else [⟨cur.reverse⟩]
  | cur, c :: cs =>
    if isWsB c then
      if cur.isEmpty then splitWsAux [] cs else ⟨cur.reverse⟩ :: splitWsAux [] cs
    else splitWsAux (c :: cur) cs

/-- Model of Python `str.split()` with no argument: split on runs of
whitespace, dropping empty fields. -/
def pySplit (s : String) : List String := splitWsAux [] s.data

/-- Model of Python `str.strip()`. -/
def pyStrip (s : String) : String :=
  ⟨((s.data.dropWhile isWsB).reverse.dropWhile isWsB).reverse⟩

/-- If the first list is a prefix of the second, return the remainder. -/
def stripPre : List Char → List Char → Option (List Char)
  | [], cs => some cs
  | _ :: _, [] => none
  | t :: ts, c :: cs => if c = t then stripPre ts cs else none

/-- Model of Python `str.startswith`. -/
def pyStarts (s p : String) : Bool := (stripPre p.data s.data).isSome

/-- Helper for `splitCh`: the first list is the current field, reversed. -/
def splitChAux (sep : Char) : List Char → List Char → List String
  | cur, [] => [⟨cur.reverse⟩]
  | cur, c :: cs =>
    if c = sep then ⟨cur.reverse⟩ :: splitChAux sep [] cs
    else splitChAux sep (c :: cur) cs

/-- Model of Python `str.split(sep)` with a one-character separator. -/
def splitCh (sep : Char) (s : String) : List String := splitChAux sep [] s.data

/-- First-match lookup in an association list (a Python `dict` read; the
write discipline below keeps keys unique, so first match is the match). -/
def lookupD [DecidableEq α] : List (α × β) → α → Option β
  | [], _ => none
  | (k, v) :: m, a => if k = a then some v else lookupD m a

/-- Python `dict` write: overwrite an existing key in place, else append. -/
def setKV [DecidableEq α] : List (α × β) → α → β → List (α × β)
  | [], k, v => [(k, v)]
  | (k0, v0) :: m, k, v => if k0 = k then (k0, v) :: m else (k0, v0) :: setKV m k v

/-- Number of occurrences of `a` in a list. -/
def cntL [DecidableEq α] (a : α) : List α → Nat
  | [] => 0
  | b :: l => (if b = a then 1 else 0) + cntL a l

/-- Value of a list of decimal digit characters. -/
def digitsToNat (cs : List Char) : Nat :=
  cs.foldl (fun n c => n * 10 + (c.toNat - '0'.toNat)) 0

/-- Model of Python `float(tok)` on the decimal forms that occur in
`/proc/stat` (optional sign, digits, optional single decimal point); any
other form raises `ValueError`. -/
def parseFloat (s : String) : Except String ℚ :=
  let sc : ℚ × List Char :=
    match s.data with
    | '+' :: r => (1, r)
    | '-' :: r => (-1, r)
    | cs => (1, cs)
  let ip := sc.2.takeWhile (fun c => c ≠ '.')
  let rest := sc.2.dropWhile (fun c => c ≠ '.')
  match rest with
  | [] =>
    if ip ≠ [] ∧ ip.all Char.isDigit then .ok (sc.1 * digitsToNat ip)
    else .error ("could not convert string to float: " ++ s)
  | _ :: fp =>
    if (ip ≠ [] ∨ fp ≠ []) ∧ ip.all Char.isDigit ∧ fp.all Char.isDigit then
      .ok (sc.1 * ((digitsToNat ip : ℚ) + (digitsToNat fp : ℚ) / (10 : ℚ) ^ fp.length))
    else .error ("could not convert string to float: " ++ s)

/-- Model of Python `int(tok)` (optional sign and decimal digits, surrounding
whitespace allowed); any other form raises `ValueError`. -/
def pyInt (s : String) : Option Int :=
  let sd : Int × List Char :=
    match (pyStrip s).data with
    | '+' :: r => (1, r)
    | '-' :: r => (-1, r)
    | r => (1, r)
  if sd.2 ≠ [] ∧ sd.2.all Char.isDigit then some (sd.1 * digitsToNat sd.2) else none

/-- Round a rational to the nearest integer, ties to even, as Python float
formatting does. -/
def roundHalfEven (q : ℚ) : ℤ :=
  let f := ⌊q⌋
  if q - f < 1 / 2 then f
  else if q - f > 1 / 2 then f + 1
  else if f % 2 = 0 then f else f + 1

/-- Model of Python `f"{x:.1f}"` on exact rationals: one decimal digit,
round half to even. -/
def fmt1 (q : ℚ) : String :=
  let n := roundHalfEven (q * 10)
  let m := n.natAbs
  (if n < 0 then "-" else "") ++ toString (m / 10) ++ "." ++ toString (m % 10)

/-! ## CPUProbe: `get_cpu_info` (monitor.py lines 19-60) -/

/-- Result record of `get_cpu_info`. -/
structure CpuResult where
  usage : String
  model : String
  cores : String
deriving DecidableEq, Repr

/-- Failure-shaped CPU result `{"usage": "N/A", "model": msg, "cores": "N/A"}`
(monitor.py lines 27 and 60). -/
def errCpu (msg : String) : CpuResult := ⟨"N/A", msg, "N/A"⟩

/-- Monitor.py line 30, `[float(x) for x in line.split()[1:]]` applied to the
already-split fields: the first bad token raises `ValueError`. -/
def parseFloats : List String → Except String (List ℚ)
  | [] => .ok []
  | s :: rest =>
    match parseFloat s with
    | .error e => .error e
    | .ok q => (parseFloats rest).map (fun l => q :: l)

/-- The `(total_time, idle_time)` pair of monitor.py lines 31-33:
`idle_time = parts[3] + parts[4]`,
`non_idle_time = parts[0] + parts[1] + parts[2] + parts[5] + parts[6] + parts[7]`,
`total_time = idle_time + non_idle_time`. -/
def cpuTotals (parts : List ℚ) : ℚ × ℚ :=
  let idleT := parts.getD 3 0 + parts.getD 4 0
  let nonIdleT := parts.getD 0 0 + parts.getD 1 0 + parts.getD 2 0 +
    parts.getD 5 0 + parts.getD 6 0 + parts.getD 7 0
  (idleT + nonIdleT, idleT)

/-- Usage string of monitor.py lines 35-43: `"0.0%"` without a previous
sample or with a non-positive total delta, otherwise the clamped delta
ratio formatted to one decimal. -/
def cpuUsageStr (prev : Option (ℚ × ℚ)) (total idle : ℚ) : String :=
  match prev with
  | none => "0.0%"
  | some (pt, pi) =>
    if total - pt > 0 then
      fmt1 (max 0 (min 100 ((total - pt - (idle - pi)) / (total - pt) * 100))) ++ "%"
    else "0.0%"

/-- The model-name step of monitor.py lines 48-50: the stripped output of the
first command or, when that is empty, the stripped output of the fallback
command; a failing command raises. -/
def modelResolve (modelRes procRes : Except String String) : Except String String :=
  match modelRes with
  | .error e => .error e
  | .ok m =>
    if pyStrip m = "" then
      match procRes with
      | .error e => .error e
      | .ok p => .ok (pyStrip p)
    else .ok (pyStrip m)

/-- Shallow embedding of `get_cpu_info` (monitor.py lines 19-60).  `readRes`
is the first line of `/proc/stat`, `modelRes` and `procRes` the two
model-name commands, `nprocRes` the `nproc` command; `.error e` models a
raised exception whose text the `except` clause at line 60 stores in the
`model` field.  `prev` is the global `prev_cpu_times`; the second component
of the result is its value after the call (it is assigned at line 45,
before the model and core-count commands run). -/
def getCpuInfo (readRes modelRes procRes nprocRes : Except String String)
    (prev : Option (ℚ × ℚ)) : CpuResult × Option (ℚ × ℚ) :=
  match readRes with
  | .error e => (errCpu e, prev)
  | .ok line =>
    if pyStarts line "cpu " then
      match parseFloats ((pySplit line).drop 1) with
      | .error e => (errCpu e, prev)
      | .ok parts =>
        if parts.length < 8 then (errCpu "list index out of range", prev)
        else
          let ti := cpuTotals parts
          let st := some ti
          match modelResolve modelRes procRes with
          | .error e => (errCpu e, st)
          | .ok model =>
            match nprocRes with
            | .error e => (errCpu e, st)
            | .ok c => (⟨cpuUsageStr prev ti.1 ti.2, model, pyStrip c⟩, st)
    else (errCpu "Error reading /proc/stat", prev)

/-! ## MemoryProbe: `get_memory_info` (monitor.py lines 126-149) -/

/-- Result record of `get_memory_info`. -/
structure MemResult where
  total : String
  used : String
  percent : String
deriving DecidableEq, Repr

/-- The meminfo dictionary of monitor.py lines 129-134: every line with
exactly one colon contributes a stripped key/value pair; a repeated key
overwrites its previous value. -/
def buildMeminfo (content : String) : List (String × String) :=
  (splitCh '\n' content).foldl
    (fun m line =>
      match splitCh ':' line with
      | [k, v] => setKV m (pyStrip k) (pyStrip v)
      | _ => m)
    []

/-- Monitor.py lines 136-137: `total_kb` and `avail_kb`.  A missing
`MemTotal` key, an empty value, or a non-numeric first token raises
(`KeyError` / `IndexError` / `ValueError`); `MemAvailable` defaults
to `"0"` when absent. -/
def memParse (content : String) : Except Unit (Int × Int) :=
  match lookupD (buildMeminfo content) "MemTotal" with
  | none => .error ()
  | some tv =>
    match pySplit tv with
    | [] => .error ()
    | t0 :: _ =>
      match pyInt t0 with
      | none => .error ()
      | some t =>
        match pySplit ((lookupD (buildMeminfo content) "MemAvailable").getD "0") with
        | [] => .error ()
        | a0 :: _ =>
          match pyInt a0 with
          | none => .error ()
          | some a => .ok (t, a)

/-- Monitor.py lines 139-141: the derived megabyte figures and the percent.
Python `//` on ints is flooring division (`Int.fdiv`), and a zero
`total_mb` raises `ZeroDivisionError` at line 141. -/
def memCompute (content : String) : Except Unit (Int × Int × ℚ) :=
  match memParse content with
  | .error e => .error e
  | .ok (t, a) =>
    let totalMb := t.fdiv 1024
    let usedMb := (t - a).fdiv 1024
    if totalMb = 0 then .error ()
    else .ok (totalMb, usedMb, (usedMb : ℚ) / (totalMb : ℚ) * 100)

/-- Shallow embedding of `get_memory_info` (monitor.py lines 126-149);
any raised error is converted to the failure-shaped default at line 149. -/
def getMemoryInfo (content : String) : MemResult :=
  match memCompute content with
  | .error _ => ⟨"N/A", "N/A", "0%"⟩
  | .ok (totalMb, usedMb, p) =>
    ⟨toString totalMb ++ " MB", toString usedMb ++ " MB", fmt1 p ++ "%"⟩

/-! ## ServiceStatusProbe: `get_service_status` (monitor.py lines 91-102) -/

/-- The configured service list `CHECK_SERVICES` (monitor.py line 12). -/
def CHECK_SERVICES : List String := ["docker", "libvirtd", "smbd"]

/-- Outcome of one `systemctl is-active <svc>` invocation: normal output,
`CalledProcessError` carrying the command's captured output (`none` models a
falsy `e.output`, i.e. `None`), or any other exception. -/
inductive SvcOutcome where
  | ok (out : String)
  | cpe (out : Option String)
  | oth
deriving DecidableEq

/-- Status string stored for one service (monitor.py lines 94-101): the
stripped output on success; on `CalledProcessError` the stripped captured
output when truthy, else `"inactive"`; `"unknown"` on any other error. -/
def svcStatus : SvcOutcome → String
  | .ok out => pyStrip out
  | .cpe none => "inactive"
  | .cpe (some out) => if out = "" then "inactive" else pyStrip out
  | .oth => "unknown"

/-- Shallow embedding of `get_service_status` (monitor.py lines 91-102);
`query` gives each service's command outcome, and the insertion-ordered
association list models `status_map`. -/
def getServiceStatus (query : String → SvcOutcome) : List (String × String) :=
  CHECK_SERVICES.map (fun svc => (svc, svcStatus (query svc)))

/-! ## Other probe result shapes (monitor.py lines 62-124, 151-162, 222-232) -/

/-- Result record of `get_disk_info` (monitor.py lines 151-162). -/
structure DiskResult where
  total : String
  used : String
  free : String
  percent : String
deriving DecidableEq

/-- One entry of `get_mount_info` (monitor.py lines 71-78). -/
structure Mount where
  source : String
  size : String
  used : String
  avail : String
  percent : String
  target : String
deriving DecidableEq

/-- One entry of `get_docker_containers` (monitor.py lines 117-121); the
probe itself returns `none` when docker is not installed. -/
structure Container where
  name : String
  image : String
  status : String
deriving DecidableEq

/-- Result record of `get_system_info` (monitor.py lines 224-230). -/
structure SystemResult where
  hostname : String
  uptime : String
  kernel : String
  os : String
  last_update : String
deriving DecidableEq

/-! ## FirewallBlockProbe result shape -/

/-- One entry of `top_blocked` (monitor.py line 209). -/
structure UfwEntry where
  ip : String
  port : String
  count : Nat
deriving DecidableEq, Repr

/-- Result record of `get_ufw_stats`; `ports` is the insertion-ordered
dict built at monitor.py line 212. -/
structure UfwStats where
  active : Bool
  top_blocked : List UfwEntry
  ports : List (String × Nat)
deriving DecidableEq, Repr

/-! ## Snapshot assembly (monitor.py lines 238-248) -/

/-- Tagged value of one snapshot field. -/
inductive SnapVal where
  | cpu (v : CpuResult)
  | memory (v : MemResult)
  | disk (v : DiskResult)
  | mounts (v : List Mount)
  | users (v : List String)
  | services (v : List (String × String))
  | docker (v : Option (List Container))
  | system (v : SystemResult)
  | ufw (v : UfwStats)

/-- The `data` dict literal of monitor.py lines 238-248, with the nine probe
results passed in (each probe is total: it returns its failure-shaped
default instead of raising). -/
def mkSnapshot (cpu : CpuResult) (memory : MemResult) (disk : DiskResult)
    (mounts : List Mount) (users : List String) (services : List (String × String))
    (docker : Option (List Container)) (system : SystemResult) (ufw : UfwStats) :
    List (String × SnapVal) :=
  [("cpu", .cpu cpu), ("memory", .memory memory), ("disk", .disk disk),
   ("mounts", .mounts mounts), ("users", .users users), ("services", .services services),
   ("docker_containers", .docker docker), ("system", .system system), ("ufw", .ufw ufw)]

/-! ## Scheduler loop (monitor.py lines 234-263) -/

/-- Exception escaping one loop body: `KeyboardInterrupt` or any other
exception carrying its message. -/
inductive LoopExc where
  | interrupt
  | err (msg : String)
deriving DecidableEq

/-- Observable action of one loop iteration. -/
inductive LoopEvent where
  | slept
  | logged (msg : String)
deriving DecidableEq

/-- One iteration of the `while True` body (monitor.py lines 236-263): a
normal body (aggregate, publish, `time.sleep`) continues; `KeyboardInterrupt`
logs the shutdown message and breaks; any other exception logs the error and
sleeps before continuing. -/
def loopStep (o : Except LoopExc Unit) : List LoopEvent × Bool :=
  match o with
  | .ok _ => ([.slept], true)
  | .error .interrupt => ([.logged "\nStopping monitor..."], false)
  | .error (.err m) => ([.logged ("Error in monitor loop: " ++ m), .slept], true)

/-- The scheduler loop run over a finite prefix of per-cycle outcomes; the
boolean is true when the loop is still running after consuming them all. -/
def runLoop : List (Except LoopExc Unit) → List LoopEvent × Bool
  | [] => ([], true)
  | o :: rest =>
    let s := loopStep o
    if s.2 then (s.1 ++ (runLoop rest).1, (runLoop rest).2) else (s.1, false)

/-! ## Publisher (monitor.py lines 253-254) -/

/-- Observable contents of the output file during one publish: monitor.py
writes with `open(DATA_FILE_PATH, 'w')` followed by `json.dump`, and
`'w'` truncates the file at open, so a concurrent reader of the path can
observe the empty truncated state before the complete new content is
written and the file closed. -/
def publishObservable (serialized : String) : List String := ["", serialized]

/-- The atomic-replacement discipline the spec demands of the publisher:
every state observable at the output path during a publish is either the
previous complete snapshot or the new complete snapshot. -/
def atomicReplace (old new : String) (obs : List String) : Prop :=
  ∀ s ∈ obs, s = old ∨ s = new

/-! ## FirewallBlockProbe: `get_ufw_stats` (monitor.py lines 164-220) -/

/-- Model of `re.search(r'TAG([^\s]+)', line)` for a literal tag (monitor.py
lines 190-191): scan left to right for the first position where the tag is
followed by at least one non-whitespace character, and capture the maximal
non-whitespace run after it. -/
def searchTag (tag : List Char) : List Char → Option String
  | [] => none
  | c :: cs =>
    match stripPre tag (c :: cs) with
    | some rem =>
      let cap := rem.takeWhile (fun x => !(isWsB x))
      if cap.isEmpty then searchTag tag cs else some ⟨cap⟩
    | none => searchTag tag cs

/-- The per-line extraction of monitor.py lines 190-195: both the `SRC=` and
the `DPT=` pattern must match, otherwise the line is skipped. -/
def extractPair (line : String) : Option (String × String) :=
  match searchTag "SRC=".data line.data, searchTag "DPT=".data line.data with
  | some s, some d => some (s, d)
  | _, _ => none

/-- One `counts[key] = counts.get(key, 0) + 1` update on an insertion-ordered
association list (Python dict semantics: an existing key keeps its position,
a new key is appended at the end). -/
def bump [DecidableEq α] : List (α × Nat) → α → List (α × Nat)
  | [], a => [(a, 1)]
  | (b, n) :: m, a => if b = a then (b, n + 1) :: m else (b, n) :: bump m a

/-- The counting loop of monitor.py lines 188-202 for one of the two
dictionaries. -/
def tally [DecidableEq α] (l : List α) : List (α × Nat) := l.foldl bump []

/-- Stable insertion into a descending-by-count list: the element being
inserted comes from earlier in the input than everything already inserted,
so it goes before the first entry whose count is not larger than its own. -/
def insFront (x : α × Nat) : List (α × Nat) → List (α × Nat)
  | [] => [x]
  | y :: ys => if y.2 > x.2 then y :: insFront x ys else x :: y :: ys

/-- Model of Python's stable `sorted(d.items(), key=lambda x: x[1],
reverse=True)` (monitor.py lines 205 and 212): descending by count, equal
counts kept in first-encountered order. -/
def sortDesc : List (α × Nat) → List (α × Nat)
  | [] => []
  | x :: xs => insFront x (sortDesc xs)

/-- The loop of monitor.py lines 206-209: split each joined `"src|dpt"` key
back into its two fields; a key that does not split into exactly two parts
raises `ValueError` at line 208, which aborts the whole probe body. -/
def toRecords : List (String × Nat) → Except Unit (List UfwEntry)
  | [] => .ok []
  | (k, c) :: rest =>
    match splitCh '|' k with
    | [ip, port] =>
      match toRecords rest with
      | .error e => .error e
      | .ok l => .ok (UfwEntry.mk ip port c :: l)
    | _ => .error ()

/-- The inactive / failure default of monitor.py lines 174 and 220. -/
def ufwDefault : UfwStats := ⟨false, [], []⟩

/-- The active branch of `get_ufw_stats` (monitor.py lines 184-218) applied
to the matching kernel-log lines: extract the (src, dpt) pairs, tally the
joined `"src|dpt"` keys and the ports, sort both tallies and keep the top
ten of each. -/
def getUfwStatsActive (lines : List String) : UfwStats :=
  let blocks := lines.filterMap extractPair
  let joined := blocks.map (fun b => b.1 ++ "|" ++ b.2)
  let dpts := blocks.map Prod.snd
  match toRecords ((sortDesc (tally joined)).take 10) with
  | .error _ => ufwDefault
  | .ok recs => ⟨true, recs, (sortDesc (tally dpts)).take 10⟩

/-- Substring test on character lists. -/
def hasSub (sub : List Char) : List Char → Bool
  | [] => sub.isEmpty
  | c :: cs => (stripPre sub (c :: cs)).isSome || hasSub sub cs

/-- Model of Python's `"Status: active" in status_output`. -/
def pyIn (sub s : String) : Bool := hasSub sub.data s.data

/-- Shallow embedding of `get_ufw_stats` (monitor.py lines 164-220).
`statusRes` is the `ufw status` command (any failure makes the firewall
count as inactive, lines 167-171); `linesRes` is the dmesg pipeline, where
`.error true` models the `CalledProcessError` treated as "no matching
lines" (lines 180-182) and `.error false` any other exception reaching the
outer handler at line 219. -/
def getUfwStats (statusRes : Except Unit String)
    (linesRes : Except Bool (List String)) : UfwStats :=
  let isActive :=
    match statusRes with
    | .ok s => pyIn "Status: active" s
    | .error _ => false
  if isActive then
    match linesRes with
    | .error true => getUfwStatsActive []
    | .error false => ufwDefault
    | .ok lines => getUfwStatsActive lines
  else ufwDefault

/-- First field of a joined key: the characters before the first bar. -/
def barFst (s : String) : String := ⟨s.data.takeWhile (fun c => c ≠ '|')⟩

/-- Second field of a joined key: the characters after the first bar. -/
def barSnd (s : String) : String := ⟨(s.data.dropWhile (fun c => c ≠ '|')).tail⟩

/-- First-occurrence deduplication: the order in which distinct elements
first appear in a list. -/
def firstDedup [DecidableEq α] : List α → List α
  | [] => []
  | x :: xs => x :: firstDedup (xs.filter (fun y => y ≠ x))
termination_by l => l.length
decreasing_by
  exact Nat.lt_succ_of_le (List.length_filter_le _ _)

/-- Count associated to a key by an association list, zero when absent. -/
def cntA [DecidableEq α] : List (α × Nat) → α → Nat
  | [], _ => 0
  | (b, n) :: m, a => if b = a then n else cntA m a

/-! ## Stable-sort lemmas -/

/-- Descending-by-count ordering of an association list. -/
def SortedDesc (l : List (α × Nat)) : Prop :=
  l.Pairwise (fun x y => y.2 ≤ x.2)

/-! ## Theorems -/

/-- C1 -/
theorem cpu_usage_formula
    (line : String) (modelRes procRes nprocRes : Except String String)
    (parts : List ℚ) (prev : Option (ℚ × ℚ)) (m c : String)
    (hline : pyStarts line "cpu " = true)
    (hparse : parseFloats ((pySplit line).drop 1) = .ok parts)
    (hlen : 8 ≤ parts.length)
    (hm : modelResolve modelRes procRes = .ok m)
    (hc : nprocRes = .ok c) :
    ∀ idleS busyS totalS : ℚ,
      idleS = parts.getD 3 0 + parts.getD 4 0 →
      busyS = parts.getD 0 0 + parts.getD 1 0 + parts.getD 2 0 +
        parts.getD 5 0 + parts.getD 6 0 + parts.getD 7 0 →
      totalS = idleS + busyS →
      (∀ pt pi, prev = some (pt, pi) → totalS - pt > 0 →
          (getCpuInfo (.ok line) modelRes procRes nprocRes prev).1.usage
            = fmt1 (max 0 (min 100 ((totalS - pt - (idleS - pi)) / (totalS - pt) * 100))) ++ "%")
        ∧ (prev = none →
          (getCpuInfo (.ok line) modelRes procRes nprocRes prev).1.usage = "0.0%") := by
  intro idleS busyS totalS hi hb ht
  have h8 : ¬ parts.length < 8 := by omega
  subst hi hb ht hc
  constructor
  · intro pt pi hp hpos
    subst hp
    simp only [getCpuInfo, hline, hparse, h8, if_true, if_false, hm, cpuTotals, cpuUsageStr]
    simp only [if_pos hpos]
  · intro hp
    subst hp
    simp only [getCpuInfo, hline, hparse, h8, if_true, if_false, hm, cpuTotals, cpuUsageStr]

/-- C1 witness -/
theorem cpu_usage_formula_witness :
    parseFloats ((pySplit "cpu 10 0 0 20 5 0 0 0 0 0").drop 1)
        = .ok [10, 0, 0, 20, 5, 0, 0, 0, 0, 0]
    ∧ (getCpuInfo (.ok "cpu 10 0 0 20 5 0 0 0 0 0") (.ok " Intel\n") (.ok "") (.ok "4\n")
        (some (10, 5))).1.usage
      = fmt1 (max 0 (min 100 (((35 : ℚ) - 10 - (25 - 5)) / (35 - 10) * 100))) ++ "%" :=
  ⟨by decide,
    ((cpu_usage_formula "cpu 10 0 0 20 5 0 0 0 0 0" (.ok " Intel\n") (.ok "") (.ok "4\n")
        [10, 0, 0, 20, 5, 0, 0, 0, 0, 0] (some (10, 5)) "Intel" "4\n"
        (by decide) (by decide) (by decide) (by decide) (by decide)
        25 10 35 (by decide) (by decide) (by decide)).1 10 5 rfl (by decide))⟩

/-- C7 -/
theorem cpu_first_and_zero_delta
    (line : String) (modelRes procRes nprocRes : Except String String)
    (parts : List ℚ) (m c : String)
    (hline : pyStarts line "cpu " = true)
    (hparse : parseFloats ((pySplit line).drop 1) = .ok parts)
    (hlen : 8 ≤ parts.length)
    (hm : modelResolve modelRes procRes = .ok m)
    (hc : nprocRes = .ok c) :
    ((getCpuInfo (.ok line) modelRes procRes nprocRes none).1.usage = "0.0%"
      ∧ (getCpuInfo (.ok line) modelRes procRes nprocRes none).2 = some (cpuTotals parts)
      ∧ some (cpuTotals parts) ≠ (none : Option (ℚ × ℚ)))
    ∧ ∀ pt pi, (pt, pi) = cpuTotals parts →
        (getCpuInfo (.ok line) modelRes procRes nprocRes (some (pt, pi))).1.usage = "0.0%" := by
  have h8 : ¬ parts.length < 8 := by omega
  subst hc
  refine ⟨⟨?_, ?_, by simp⟩, ?_⟩
  · simp only [getCpuInfo, hline, hparse, h8, if_true, if_false, hm, cpuUsageStr]
  · simp only [getCpuInfo, hline, hparse, h8, if_true, if_false, hm]
  · intro pt pi hp
    have hz : ¬ ((cpuTotals parts).1 - pt > 0) := by
      have : pt = (cpuTotals parts).1 := by rw [← hp]
      simp [this]
    simp only [getCpuInfo, hline, hparse, h8, if_true, if_false, hm, cpuUsageStr]
    simp only [if_neg hz]

/-- C7 witness -/
theorem cpu_first_and_zero_delta_witness :
    pyStarts "cpu 10 0 0 20 5 0 0 0 0 0" "cpu " = true
    ∧ (getCpuInfo (.ok "cpu 10 0 0 20 5 0 0 0 0 0") (.ok " Intel\n") (.ok "") (.ok "4\n")
        none).1.usage = "0.0%"
    ∧ (getCpuInfo (.ok "cpu 10 0 0 20 5 0 0 0 0 0") (.ok " Intel\n") (.ok "") (.ok "4\n")
        (some (35, 25))).1.usage = "0.0%" := by
  have h := cpu_first_and_zero_delta "cpu 10 0 0 20 5 0 0 0 0 0" (.ok " Intel\n") (.ok "")
    (.ok "4\n") [10, 0, 0, 20, 5, 0, 0, 0, 0, 0] "Intel" "4\n"
    (by decide) (by decide) (by decide) (by decide) (by decide)
  exact ⟨by decide, h.1.1, h.2 35 25 (by decide)⟩

/-- C3 amended -/
theorem cpu_error_paths :
    (∀ (e : String) mr pr nr prev, getCpuInfo (.error e) mr pr nr prev = (errCpu e, prev))
    ∧ (∀ (line : String) mr pr nr prev, pyStarts line "cpu " = false →
        getCpuInfo (.ok line) mr pr nr prev = (errCpu "Error reading /proc/stat", prev))
    ∧ (∀ (line e : String) mr pr nr prev, pyStarts line "cpu " = true →
        parseFloats ((pySplit line).drop 1) = .error e →
        getCpuInfo (.ok line) mr pr nr prev = (errCpu e, prev))
    ∧ (∀ (line : String) parts mr pr nr prev, pyStarts line "cpu " = true →
        parseFloats ((pySplit line).drop 1) = .ok parts → parts.length < 8 →
        getCpuInfo (.ok line) mr pr nr prev = (errCpu "list index out of range", prev))
    ∧ (∀ (line e : String) parts mr pr nr prev, pyStarts line "cpu " = true →
        parseFloats ((pySplit line).drop 1) = .ok parts → 8 ≤ parts.length →
        modelResolve mr pr = .error e →
        getCpuInfo (.ok line) mr pr nr prev = (errCpu e, some (cpuTotals parts)))
    ∧ (∀ (line m e : String) parts mr pr prev, pyStarts line "cpu " = true →
        parseFloats ((pySplit line).drop 1) = .ok parts → 8 ≤ parts.length →
        modelResolve mr pr = .ok m →
        getCpuInfo (.ok line) mr pr (.error e) prev = (errCpu e, some (cpuTotals parts))) := by
  refine ⟨fun e mr pr nr prev => rfl, ?_, ?_, ?_, ?_, ?_⟩
  · intro line mr pr nr prev h
    simp only [getCpuInfo, h, Bool.false_eq_true, if_false]
  · intro line e mr pr nr prev h hp
    simp only [getCpuInfo, h, hp, if_true]
  · intro line parts mr pr nr prev h hp hlen
    simp only [getCpuInfo, h, hp, hlen, if_true]
  · intro line e parts mr pr nr prev h hp hlen hm
    have h8 : ¬ parts.length < 8 := by omega
    simp only [getCpuInfo, h, hp, h8, hm, if_true, if_false]
  · intro line m e parts mr pr prev h hp hlen hm
    have h8 : ¬ parts.length < 8 := by omega
    simp only [getCpuInfo, h, hp, h8, hm, if_true, if_false]

/-- C3 counterexample -/
theorem cpu_error_state_counterexample :
    getCpuInfo (.ok "cpu 1 0 0 1 0 0 0 0") (.error "boom") (.ok "") (.ok "4") none
      = (errCpu "boom", some (2, 1))
    ∧ some ((2 : ℚ), (1 : ℚ)) ≠ (none : Option (ℚ × ℚ)) :=
  ⟨by decide, by simp⟩

/-- C3 amended witness -/
theorem cpu_error_paths_witness :
    getCpuInfo (.ok "cpu 1 0 0 1 0 0 0 0") (.error "boom") (.ok "") (.ok "4") (some (7, 7))
      = (errCpu "boom", some (cpuTotals [1, 0, 0, 1, 0, 0, 0, 0])) :=
  (cpu_error_paths.2.2.2.2.1) "cpu 1 0 0 1 0 0 0 0" "boom" [1, 0, 0, 1, 0, 0, 0, 0]
    (.error "boom") (.ok "") (.ok "4") (some (7, 7)) (by decide) (by decide) (by decide)
    (by decide)

/-- C8 amended -/
theorem mem_percent_bounds :
    (∀ (content : String) (t a : Int), memParse content = .ok (t, a) →
      0 ≤ a → a ≤ t → 0 < t.fdiv 1024 →
      ∃ p : ℚ, memCompute content = .ok (t.fdiv 1024, (t - a).fdiv 1024, p)
        ∧ 0 ≤ p ∧ p ≤ 100
        ∧ (getMemoryInfo content).percent = fmt1 p ++ "%")
    ∧ (∀ (content : String) (t a : Int), memParse content = .ok (t, a) →
      t.fdiv 1024 = 0 → getMemoryInfo content = ⟨"N/A", "N/A", "0%"⟩) := by
  constructor
  · intro content t a hp ha hat hpos
    have hne : ¬ t.fdiv 1024 = 0 := by omega
    have e1 := Int.fdiv_add_fmod (t - a) 1024
    have e2 := Int.fdiv_add_fmod t 1024
    have m1 : 0 ≤ (t - a).fmod 1024 := Int.fmod_nonneg' _ (by norm_num)
    have m2 : t.fmod 1024 < 1024 := Int.fmod_lt_of_pos t (by norm_num)
    have hu0 : 0 ≤ (t - a).fdiv 1024 := Int.fdiv_nonneg (by omega) (by norm_num)
    have hle : (t - a).fdiv 1024 ≤ t.fdiv 1024 := by omega
    refine ⟨((t - a).fdiv 1024 : ℚ) / (t.fdiv 1024 : ℚ) * 100, ?_, ?_, ?_, ?_⟩
    · simp only [memCompute, hp, hne, if_false, if_neg hne]
    · have hvq : (0 : ℚ) < (t.fdiv 1024 : ℚ) := by exact_mod_cast hpos
      have huq : (0 : ℚ) ≤ ((t - a).fdiv 1024 : ℚ) := by exact_mod_cast hu0
      positivity
    · have hvq : (0 : ℚ) < (t.fdiv 1024 : ℚ) := by exact_mod_cast hpos
      have hlq : ((t - a).fdiv 1024 : ℚ) ≤ (t.fdiv 1024 : ℚ) := by exact_mod_cast hle
      have h1 : ((t - a).fdiv 1024 : ℚ) / (t.fdiv 1024 : ℚ) ≤ 1 :=
        (div_le_one hvq).mpr hlq
      calc ((t - a).fdiv 1024 : ℚ) / (t.fdiv 1024 : ℚ) * 100
          ≤ 1 * 100 := by
            exact mul_le_mul_of_nonneg_right h1 (by norm_num)
        _ = 100 := by norm_num
    · simp only [getMemoryInfo, memCompute, hp, if_neg hne]
  · intro content t a hp h0
    simp only [getMemoryInfo, memCompute, hp, h0, if_pos, if_true]

/-- C8 counterexample -/
theorem mem_percent_counterexample :
    memParse "MemTotal: 1024 kB\nMemAvailable: 2048 kB" = .ok (1024, 2048)
    ∧ memCompute "MemTotal: 1024 kB\nMemAvailable: 2048 kB" = .ok (1, -1, -100)
    ∧ (getMemoryInfo "MemTotal: 1024 kB\nMemAvailable: 2048 kB").percent = "-100.0%"
    ∧ ¬ ((0 : ℚ) ≤ -100) :=
  ⟨by decide, by decide, by decide, by norm_num⟩

/-- C8 witness -/
theorem mem_percent_bounds_witness :
    memParse "MemTotal: 2048 kB\nMemAvailable: 1024 kB" = .ok (2048, 1024)
    ∧ (∃ p : ℚ, memCompute "MemTotal: 2048 kB\nMemAvailable: 1024 kB"
          = .ok ((2048 : ℤ).fdiv 1024, ((2048 : ℤ) - 1024).fdiv 1024, p)
        ∧ 0 ≤ p ∧ p ≤ 100
        ∧ (getMemoryInfo "MemTotal: 2048 kB\nMemAvailable: 1024 kB").percent = fmt1 p ++ "%")
    ∧ getMemoryInfo "MemTotal: 512 kB" = ⟨"N/A", "N/A", "0%"⟩ :=
  ⟨by decide,
    mem_percent_bounds.1 "MemTotal: 2048 kB\nMemAvailable: 1024 kB" 2048 1024
      (by decide) (by decide) (by decide) (by decide),
    mem_percent_bounds.2 "MemTotal: 512 kB" 512 0 (by decide) (by decide)⟩

/-- C9 amended -/
theorem service_status_map (query : String → SvcOutcome) :
    (getServiceStatus query).map Prod.fst = CHECK_SERVICES
    ∧ ∀ svc ∈ CHECK_SERVICES,
        lookupD (getServiceStatus query) svc = some (svcStatus (query svc)) := by
  refine ⟨by simp [getServiceStatus, CHECK_SERVICES], ?_⟩
  intro svc hsvc
  fin_cases hsvc <;> simp [getServiceStatus, CHECK_SERVICES, lookupD]

/-- C9 witness -/
theorem service_status_map_witness :
    ("docker" ∈ CHECK_SERVICES)
    ∧ lookupD (getServiceStatus (fun _ => SvcOutcome.oth)) "docker"
        = some (svcStatus SvcOutcome.oth) :=
  ⟨by decide, (service_status_map (fun _ => SvcOutcome.oth)).2 "docker" (by decide)⟩

/-- C9 counterexample -/
theorem service_status_counterexample :
    getServiceStatus
        (fun s => if s = "docker" then SvcOutcome.cpe (some "failed\n") else SvcOutcome.ok "active\n")
      = [("docker", "failed"), ("libvirtd", "active"), ("smbd", "active")]
    ∧ "failed" ≠ "inactive" ∧ "failed" ≠ "unknown" :=
  ⟨by decide, by decide, by decide⟩

/-- C5 -/
theorem snapshot_nine_keys (cpu : CpuResult) (memory : MemResult) (disk : DiskResult)
    (mounts : List Mount) (users : List String) (services : List (String × String))
    (docker : Option (List Container)) (system : SystemResult) (ufw : UfwStats) :
    (mkSnapshot cpu memory disk mounts users services docker system ufw).map Prod.fst
      = ["cpu", "memory", "disk", "mounts", "users", "services", "docker_containers",
         "system", "ufw"]
    ∧ lookupD (mkSnapshot cpu memory disk mounts users services docker system ufw) "cpu"
        = some (.cpu cpu)
    ∧ lookupD (mkSnapshot cpu memory disk mounts users services docker system ufw) "memory"
        = some (.memory memory)
    ∧ lookupD (mkSnapshot cpu memory disk mounts users services docker system ufw) "disk"
        = some (.disk disk)
    ∧ lookupD (mkSnapshot cpu memory disk mounts users services docker system ufw) "mounts"
        = some (.mounts mounts)
    ∧ lookupD (mkSnapshot cpu memory disk mounts users services docker system ufw) "users"
        = some (.users users)
    ∧ lookupD (mkSnapshot cpu memory disk mounts users services docker system ufw) "services"
        = some (.services services)
    ∧ lookupD (mkSnapshot cpu memory disk mounts users services docker system ufw)
        "docker_containers" = some (.docker docker)
    ∧ lookupD (mkSnapshot cpu memory disk mounts users services docker system ufw) "system"
        = some (.system system)
    ∧ lookupD (mkSnapshot cpu memory disk mounts users services docker system ufw) "ufw"
        = some (.ufw ufw) := by
  refine ⟨rfl, ?_, ?_, ?_, ?_, ?_, ?_, ?_, ?_, ?_⟩ <;> rfl

/-- C6 -/
theorem loop_survives_errors :
    (∀ m, loopStep (.error (.err m))
        = ([.logged ("Error in monitor loop: " ++ m), .slept], true))
    ∧ (∀ outs : List (Except LoopExc Unit),
        (∀ o ∈ outs, o ≠ .error .interrupt) → (runLoop outs).2 = true)
    ∧ (∀ pre post, (∀ o ∈ pre, o ≠ .error .interrupt) →
        runLoop (pre ++ .error .interrupt :: post)
          = ((runLoop pre).1 ++ [.logged "\nStopping monitor..."], false)) := by
  refine ⟨fun m => rfl, ?_, ?_⟩
  · intro outs h
    induction outs with
    | nil => rfl
    | cons o rest ih =>
      have ho := h o (by simp)
      have hrest : ∀ o ∈ rest, o ≠ Except.error LoopExc.interrupt := by
        intro x hx
        exact h x (by simp [hx])
      match o with
      | .ok _ => simpa [runLoop, loopStep] using ih hrest
      | .error .interrupt => exact absurd rfl ho
      | .error (.err m) => simpa [runLoop, loopStep] using ih hrest
  · intro pre post h
    induction pre with
    | nil => simp [runLoop, loopStep]
    | cons o rest ih =>
      have ho := h o (by simp)
      have hrest : ∀ o ∈ rest, o ≠ Except.error LoopExc.interrupt := by
        intro x hx
        exact h x (by simp [hx])
      match o with
      | .ok _ => simp [runLoop, loopStep, ih hrest]
      | .error .interrupt => exact absurd rfl ho
      | .error (.err m) => simp [runLoop, loopStep, ih hrest]

/-- C6 witness -/
theorem loop_survives_errors_witness :
    (∀ o ∈ [Except.error (LoopExc.err "boom"), Except.ok ()],
      o ≠ Except.error LoopExc.interrupt)
    ∧ (runLoop [Except.error (LoopExc.err "boom"), Except.ok ()]).2 = true :=
  ⟨by decide, loop_survives_errors.2.1 [Except.error (LoopExc.err "boom"), Except.ok ()]
    (by decide)⟩

/-- C2 counterexample -/
theorem publish_not_atomic_counterexample :
    ¬ atomicReplace "old snapshot" "new snapshot" (publishObservable "new snapshot") := by
  simp only [atomicReplace, publishObservable]
  decide

/-- C2 amended -/
theorem publish_truncate_write :
    ∀ s : String, publishObservable s = ["", s]
      ∧ (publishObservable s).getLast? = some s
      ∧ "" ∈ publishObservable s
      ∧ (s ≠ "" → ∀ old : String, old ≠ "" → ¬ atomicReplace old s (publishObservable s)) := by
  intro s
  refine ⟨rfl, by simp [publishObservable], by simp [publishObservable], ?_⟩
  intro hs old hold hatomic
  rcases hatomic "" (by simp [publishObservable]) with h | h
  · exact hold h.symm
  · exact hs h.symm

/-- C2 amended witness -/
theorem publish_truncate_write_witness :
    ("new snapshot" : String) ≠ ""
    ∧ ¬ atomicReplace "old snapshot" "new snapshot" (publishObservable "new snapshot") :=
  ⟨by decide,
    (publish_truncate_write "new snapshot").2.2.2 (by decide) "old snapshot" (by decide)⟩

/-! ## Dictionary-tally lemmas -/

/-- Bumping a key adds one to its count and leaves other counts alone. -/
theorem cntA_bump [DecidableEq α] (m : List (α × Nat)) (x a : α) :
    cntA (bump m x) a = cntA m a + (if x = a then 1 else 0) := by
  induction m with
  | nil => by_cases h : x = a <;> simp [bump, cntA, h]
  | cons p m ih =>
    obtain ⟨b, n⟩ := p
    by_cases hb : b = x
    · subst hb
      by_cases ha : b = a
      · subst ha
        simp [bump, cntA]
      · simp [bump, cntA, ha]
    · by_cases ha : b = a
      · subst ha
        have hxa : ¬ x = b := fun h => hb h.symm
        simp [bump, cntA, hb, hxa]
      · simp [bump, cntA, hb, ha, ih]

/-- Folding `bump` accumulates occurrence counts. -/
theorem cntA_foldl_bump [DecidableEq α] (l : List α) (m : List (α × Nat)) (a : α) :
    cntA (l.foldl bump m) a = cntA m a + cntL a l := by
  induction l generalizing m with
  | nil => simp [cntL]
  | cons x l ih =>
    show cntA (l.foldl bump (bump m x)) a = _
    rw [ih, cntA_bump]
    by_cases h : x = a
    · simp [cntL, h]
      omega
    · simp [cntL, h]

/-- The tally of a list counts occurrences. -/
theorem cntA_tally [DecidableEq α] (l : List α) (a : α) :
    cntA (tally l) a = cntL a l := by
  simpa [cntA] using cntA_foldl_bump l [] a

/-- Bumping keeps the key list, or appends the new key at the end. -/
theorem keys_bump [DecidableEq α] (m : List (α × Nat)) (x : α) :
    (bump m x).map Prod.fst
      = if x ∈ m.map Prod.fst then m.map Prod.fst else m.map Prod.fst ++ [x] := by
  induction m with
  | nil => simp [bump]
  | cons p m ih =>
    obtain ⟨b, n⟩ := p
    by_cases hb : b = x
    · subst hb
      simp [bump]
    · have hxb : ¬ x = b := fun h => hb h.symm
      by_cases hx : x ∈ m.map Prod.fst
      · simp [bump, hb, hxb, hx, ih]
      · simp [bump, hb, hxb, hx, ih]

/-- Bumping preserves distinctness of the keys. -/
theorem nodup_keys_bump [DecidableEq α] (m : List (α × Nat)) (x : α)
    (h : (m.map Prod.fst).Nodup) : ((bump m x).map Prod.fst).Nodup := by
  rw [keys_bump]
  by_cases hx : x ∈ m.map Prod.fst
  · simpa [hx] using h
  · simpa [hx] using List.Nodup.append h (List.nodup_singleton x) (by simpa using hx)

/-- All tally keys are distinct. -/
theorem nodup_keys_tally [DecidableEq α] (l : List α) :
    ((tally l).map Prod.fst).Nodup := by
  have h : ∀ (m : List (α × Nat)), (m.map Prod.fst).Nodup →
      ((l.foldl bump m).map Prod.fst).Nodup := by
    induction l with
    | nil => intro m hm; simpa using hm
    | cons x l ih =>
      intro m hm
      exact ih (bump m x) (nodup_keys_bump m x hm)
  simpa [tally] using h [] (by simp)

/-- All tally counts are positive. -/
theorem pos_tally [DecidableEq α] (l : List α) :
    ∀ p ∈ tally l, 0 < p.2 := by
  have hb : ∀ (m : List (α × Nat)) (x : α), (∀ p ∈ m, 0 < p.2) →
      ∀ p ∈ bump m x, 0 < p.2 := by
    intro m x
    induction m with
    | nil => intro _ p hp; simp [bump] at hp; simp [hp]
    | cons q m ih =>
      obtain ⟨b, n⟩ := q
      intro hm p hp
      by_cases hbx : b = x
      · subst hbx
        simp [bump] at hp
        rcases hp with hp | hp
        · simp [hp]
        · exact hm p (by simp [hp])
      · simp [bump, hbx] at hp
        rcases hp with hp | hp
        · exact hm p (by simp [hp])
        · exact ih (fun r hr => hm r (by simp [hr])) p hp
  have h : ∀ (m : List (α × Nat)), (∀ p ∈ m, 0 < p.2) →
      ∀ p ∈ l.foldl bump m, 0 < p.2 := by
    induction l with
    | nil => intro m hm; simpa using hm
    | cons x l ih => intro m hm; exact ih (bump m x) (hb m x hm)
  simpa [tally] using h [] (by simp)

/-- In a list with distinct keys, membership determines the looked-up count. -/
theorem cntA_of_mem [DecidableEq α] {m : List (α × Nat)} {a : α} {n : Nat}
    (h : (a, n) ∈ m) (hnd : (m.map Prod.fst).Nodup) : cntA m a = n := by
  induction m with
  | nil => simp at h
  | cons p m ih =>
    obtain ⟨b, k⟩ := p
    rcases List.mem_cons.mp h with hp | hp
    · injection hp with h1 h2
      subst h1
      subst h2
      simp [cntA]
    · have hnd' := List.nodup_cons.mp (show (b :: m.map Prod.fst).Nodup by simpa using hnd)
      have hb : ¬ b = a := by
        intro hba
        subst hba
        exact hnd'.1 (List.mem_map_of_mem Prod.fst hp)
      simp [cntA, hb, ih hp hnd'.2]

/-- A tally entry records the exact occurrence count of its key. -/
theorem mem_tally_count [DecidableEq α] {l : List α} {a : α} {n : Nat}
    (h : (a, n) ∈ tally l) : n = cntL a l := by
  rw [← cntA_tally l a, cntA_of_mem h (nodup_keys_tally l)]

/-- Positive occurrence count characterises membership. -/
theorem cntL_pos [DecidableEq α] (a : α) (l : List α) : 0 < cntL a l ↔ a ∈ l := by
  induction l with
  | nil => simp [cntL]
  | cons b l ih =>
    by_cases h : b = a
    · simp [cntL, h]
    · have h2 : ¬ a = b := fun hh => h hh.symm
      simp [cntL, h, h2, ih]

/-- A tally key occurs in the tallied list. -/
theorem key_mem_tally [DecidableEq α] {l : List α} {a : α} {n : Nat}
    (h : (a, n) ∈ tally l) : a ∈ l := by
  have hpos := pos_tally l _ h
  have := mem_tally_count h
  exact (cntL_pos a l).mp (by omega)

/-- Membership is preserved by stable insertion. -/
theorem mem_insFront (x p : α × Nat) (m : List (α × Nat)) :
    p ∈ insFront x m ↔ p = x ∨ p ∈ m := by
  induction m with
  | nil => simp [insFront]
  | cons y ys ih =>
    by_cases h : y.2 > x.2
    · simp only [insFront, if_pos h, List.mem_cons, ih]
      tauto
    · simp only [insFront, if_neg h, List.mem_cons]

/-- Membership is preserved by the stable sort. -/
theorem mem_sortDesc (p : α × Nat) (l : List (α × Nat)) :
    p ∈ sortDesc l ↔ p ∈ l := by
  induction l with
  | nil => simp [sortDesc]
  | cons x xs ih => simp [sortDesc, mem_insFront, ih]

/-- Stable insertion permutes consing. -/
theorem perm_insFront (x : α × Nat) (m : List (α × Nat)) :
    (insFront x m).Perm (x :: m) := by
  induction m with
  | nil => simp [insFront]
  | cons y ys ih =>
    by_cases h : y.2 > x.2
    · simp only [insFront, if_pos h]
      exact (ih.cons y).trans (List.Perm.swap x y ys)
    · simp [insFront, h]

/-- The stable sort is a permutation of its input. -/
theorem perm_sortDesc (l : List (α × Nat)) : (sortDesc l).Perm l := by
  induction l with
  | nil => simp [sortDesc]
  | cons x xs ih => exact (perm_insFront x (sortDesc xs)).trans (ih.cons x)

/-- Stable insertion preserves descending order. -/
theorem sortedDesc_insFront (x : α × Nat) (m : List (α × Nat))
    (h : SortedDesc m) : SortedDesc (insFront x m) := by
  induction m with
  | nil => simp [insFront, SortedDesc]
  | cons y ys ih =>
    rcases List.pairwise_cons.mp h with ⟨hy, hys⟩
    by_cases hc : y.2 > x.2
    · simp only [insFront, if_pos hc]
      refine List.pairwise_cons.mpr ⟨?_, ih hys⟩
      intro z hz
      rcases (mem_insFront x z ys).mp hz with rfl | hzm
      · omega
      · exact hy z hzm
    · simp only [insFront, if_neg hc]
      refine List.pairwise_cons.mpr ⟨?_, h⟩
      intro z hz
      rcases List.mem_cons.mp hz with rfl | hzm
      · omega
      · have := hy z hzm
        omega

/-- The stable sort sorts by descending count. -/
theorem sortedDesc_sortDesc (l : List (α × Nat)) : SortedDesc (sortDesc l) := by
  induction l with
  | nil => simp [sortDesc, SortedDesc]
  | cons x xs ih => exact sortedDesc_insFront x (sortDesc xs) ih

/-- Stable insertion never reorders the entries of any one count class:
inserting an element of another count leaves the class alone, and an
element of the same count (always coming from earlier in the input) goes
in front of the class. -/
theorem filter_insFront (c : Nat) (x : α × Nat) (m : List (α × Nat)) :
    (insFront x m).filter (fun p => p.2 = c)
      = if x.2 = c then x :: m.filter (fun p => p.2 = c)
        else m.filter (fun p => p.2 = c) := by
  induction m with
  | nil => by_cases h : x.2 = c <;> simp [insFront, h]
  | cons y ys ih =>
    by_cases hc : y.2 > x.2
    · simp only [insFront, if_pos hc]
      by_cases hx : x.2 = c
      · have hy : ¬ (y.2 = c) := by omega
        simp [List.filter_cons, hy, ih, hx]
      · by_cases hy : y.2 = c
        · simp [List.filter_cons, hy, ih, hx]
        · simp [List.filter_cons, hy, ih, hx]
    · simp only [insFront, if_neg hc]
      by_cases hx : x.2 = c
      · simp [List.filter_cons, hx]
      · simp [List.filter_cons, hx]

/-- The stable sort keeps every count class in input order. -/
theorem filter_sortDesc (c : Nat) (l : List (α × Nat)) :
    (sortDesc l).filter (fun p => p.2 = c) = l.filter (fun p => p.2 = c) := by
  induction l with
  | nil => simp [sortDesc]
  | cons x xs ih =>
    by_cases hx : x.2 = c <;> simp [sortDesc, filter_insFront, hx, ih]

/-! ## Split / join lemmas -/

/-- Splitting always yields at least one field. -/
theorem splitChAux_ne_nil (sep : Char) (acc l : List Char) :
    splitChAux sep acc l ≠ [] := by
  induction l generalizing acc with
  | nil => simp [splitChAux]
  | cons c cs ih =>
    by_cases hc : c = sep
    · simp [splitChAux, hc]
    · simp only [splitChAux, if_neg hc]
      exact ih (c :: acc)

/-- Splitting a separator-free list yields a single field. -/
theorem splitChAux_no_sep (sep : Char) (acc d : List Char) (hd : sep ∉ d) :
    splitChAux sep acc d = [⟨acc.reverse ++ d⟩] := by
  induction d generalizing acc with
  | nil => simp [splitChAux]
  | cons c cs ih =>
    have hc : ¬ c = sep := fun h => hd (by simp [h])
    have hcs : sep ∉ cs := fun h => hd (by simp [h])
    simp only [splitChAux, if_neg hc]
    rw [ih (c :: acc) hcs]
    simp

/-- Splitting around one separator with separator-free fields. -/
theorem splitChAux_app (sep : Char) (acc s d : List Char)
    (hs : sep ∉ s) (hd : sep ∉ d) :
    splitChAux sep acc (s ++ sep :: d) = [⟨acc.reverse ++ s⟩, ⟨d⟩] := by
  induction s generalizing acc with
  | nil =>
    simp only [List.nil_append, splitChAux, if_pos rfl]
    rw [splitChAux_no_sep sep [] d hd]
    simp
  | cons c cs ih =>
    have hc : ¬ c = sep := fun h => hs (by simp [h])
    have hcs : sep ∉ cs := fun h => hs (by simp [h])
    simp only [List.cons_append, splitChAux, if_neg hc]
    show splitChAux sep (c :: acc) (cs ++ sep :: d) = _
    rw [ih (c :: acc) hcs]
    simp

/-- Joining two bar-free fields with a bar and splitting on the bar
recovers the fields (monitor.py line 198 versus line 208). -/
theorem splitCh_join (s d : String) (hs : '|' ∉ s.data) (hd : '|' ∉ d.data) :
    splitCh '|' (s ++ "|" ++ d) = [s, d] := by
  have hdata : (s ++ "|" ++ d).data = s.data ++ '|' :: d.data := by
    simp [String.data_append]
  simp only [splitCh, hdata]
  rw [splitChAux_app '|' [] s.data d.data hs hd]
  simp

/-- A split that yields a single field had no separator. -/
theorem splitChAux_single (sep : Char) (acc l : List Char) (z : String)
    (h : splitChAux sep acc l = [z]) : sep ∉ l ∧ z = ⟨acc.reverse ++ l⟩ := by
  induction l generalizing acc with
  | nil =>
    simp only [splitChAux] at h
    injection h with h1 _
    exact ⟨by simp, by simp [← h1]⟩
  | cons c cs ih =>
    by_cases hc : c = sep
    · rw [show splitChAux sep acc (c :: cs) = ⟨acc.reverse⟩ :: splitChAux sep [] cs by
        simp [splitChAux, hc]] at h
      injection h with _ h2
      exact absurd h2 (splitChAux_ne_nil sep [] cs)
    · rw [show splitChAux sep acc (c :: cs) = splitChAux sep (c :: acc) cs by
        simp [splitChAux, hc]] at h
      obtain ⟨hmem, hz⟩ := ih (c :: acc) h
      constructor
      · intro hmem2
        rcases List.mem_cons.mp hmem2 with h3 | h3
        · exact hc h3.symm
        · exact hmem h3
      · rw [hz]
        simp

/-- A split that yields exactly two fields inverts to one separator
occurrence between two separator-free fields. -/
theorem splitChAux_two (sep : Char) (l : List Char) : ∀ (acc : List Char) (x y : String),
    splitChAux sep acc l = [x, y] →
    ∃ s d, l = s ++ sep :: d ∧ sep ∉ s ∧ sep ∉ d
      ∧ x = ⟨acc.reverse ++ s⟩ ∧ y = ⟨d⟩ := by
  induction l with
  | nil =>
    intro acc x y h
    simp [splitChAux] at h
  | cons c cs ih =>
    intro acc x y h
    by_cases hc : c = sep
    · rw [show splitChAux sep acc (c :: cs) = ⟨acc.reverse⟩ :: splitChAux sep [] cs by
        simp [splitChAux, hc]] at h
      injection h with h1 h2
      obtain ⟨hmem, hy⟩ := splitChAux_single sep [] cs y h2
      subst hc
      exact ⟨[], cs, by simp, by simp, hmem, by simp [← h1], by simpa using hy⟩
    · rw [show splitChAux sep acc (c :: cs) = splitChAux sep (c :: acc) cs by
        simp [splitChAux, hc]] at h
      obtain ⟨s, d, hl, hs, hd, hx, hy⟩ := ih (c :: acc) x y h
      refine ⟨c :: s, d, by simp [hl], ?_, hd, ?_, hy⟩
      · intro h3
        rcases List.mem_cons.mp h3 with h4 | h4
        · exact hc h4.symm
        · exact hs h4
      · rw [hx]
        simp

/-- String-level inversion of a two-field split on the bar. -/
theorem splitCh_two (k x y : String) (h : splitCh '|' k = [x, y]) :
    k.data = x.data ++ '|' :: y.data ∧ '|' ∉ x.data ∧ '|' ∉ y.data := by
  obtain ⟨s, d, hl, hs, hd, hx, hy⟩ := splitChAux_two '|' k.data [] x y h
  subst hx
  subst hy
  exact ⟨by simpa using hl, by simpa using hs, by simpa using hd⟩

/-- A list with a single bar decomposes uniquely around it. -/
theorem bar_split_unique (l1 r1 l2 r2 : List Char)
    (h : l1 ++ '|' :: r1 = l2 ++ '|' :: r2) (h2 : '|' ∉ l2) (h3 : '|' ∉ r2) :
    l1 = l2 ∧ r1 = r2 := by
  induction l2 generalizing l1 with
  | nil =>
    cases l1 with
    | nil =>
      simp at h
      exact ⟨rfl, h⟩
    | cons c l1t =>
      simp at h
      obtain ⟨rfl, h5⟩ := h
      exact absurd (by rw [← h5]; simp : '|' ∈ r2) h3
  | cons c2 l2t ih =>
    have hc2 : ¬ ('|' = c2) := fun hh => h2 (by simp [← hh])
    cases l1 with
    | nil =>
      simp at h
      obtain ⟨h4, _⟩ := h
      exact absurd h4 hc2
    | cons c l1t =>
      simp only [List.cons_append, List.cons.injEq] at h
      obtain ⟨rfl, h5⟩ := h
      have h2t : '|' ∉ l2t := fun hh => h2 (by simp [hh])
      obtain ⟨h6, h7⟩ := ih l1t h5 h2t
      exact ⟨by rw [h6], h7⟩

/-- Taking up to the first bar of a joined key recovers the first field,
dropping through it recovers the second. -/
theorem bar_take_drop (s d : List Char) (hs : '|' ∉ s) :
    (s ++ '|' :: d).takeWhile (fun c => c ≠ '|') = s
    ∧ ((s ++ '|' :: d).dropWhile (fun c => c ≠ '|')).tail = d := by
  induction s with
  | nil => simp [List.takeWhile, List.dropWhile]
  | cons c cs ih =>
    have hc : ¬ c = '|' := fun h => hs (by simp [h])
    have hcs : '|' ∉ cs := fun h => hs (by simp [h])
    obtain ⟨h1, h2⟩ := ih hcs
    constructor
    · simp only [List.cons_append, List.takeWhile_cons]
      rw [if_pos (by simp [hc])]
      rw [h1]
    · simp only [List.cons_append, List.dropWhile_cons]
      rw [if_pos (by simp [hc])]
      exact h2

/-- The first field of a bar-join. -/
theorem barFst_join (s d : String) (hs : '|' ∉ s.data) :
    barFst (s ++ "|" ++ d) = s := by
  have hdata : (s ++ "|" ++ d).data = s.data ++ '|' :: d.data := by
    simp [String.data_append]
  have h := (bar_take_drop s.data d.data hs).1
  simp only [barFst, hdata, h]

/-- The second field of a bar-join. -/
theorem barSnd_join (s d : String) (hs : '|' ∉ s.data) :
    barSnd (s ++ "|" ++ d) = d := by
  have hdata : (s ++ "|" ++ d).data = s.data ++ '|' :: d.data := by
    simp [String.data_append]
  have h := (bar_take_drop s.data d.data hs).2
  simp only [barSnd, hdata, h]

/-! ## First-encounter order of dictionary keys -/

/-- Folding `bump` lists the keys already present, then the new keys in
first-encounter order. -/
theorem keys_foldl_bump [DecidableEq α] (l : List α) : ∀ (m : List (α × Nat)),
    (l.foldl bump m).map Prod.fst
      = m.map Prod.fst ++ firstDedup (l.filter (fun a => a ∉ m.map Prod.fst)) := by
  induction l with
  | nil =>
    intro m
    simp [firstDedup]
  | cons x xs ih =>
    intro m
    show (xs.foldl bump (bump m x)).map Prod.fst = _
    rw [ih (bump m x), keys_bump]
    by_cases hx : x ∈ m.map Prod.fst
    · rw [if_pos hx]
      have hfc : (x :: xs).filter (fun a => a ∉ m.map Prod.fst)
          = xs.filter (fun a => a ∉ m.map Prod.fst) := by
        simp [List.filter_cons, hx]
      rw [hfc]
    · rw [if_neg hx]
      have hfil : xs.filter (fun a => a ∉ m.map Prod.fst ++ [x])
          = (xs.filter (fun a => a ∉ m.map Prod.fst)).filter (fun y => y ≠ x) := by
        rw [List.filter_filter]
        apply List.filter_congr
        intro a _
        by_cases h1 : a = x
        · simp [h1, List.mem_append]
        · by_cases h2 : a ∈ m.map Prod.fst <;> simp [h1, h2, List.mem_append]
      have hfc : (x :: xs).filter (fun a => a ∉ m.map Prod.fst)
          = x :: xs.filter (fun a => a ∉ m.map Prod.fst) := by
        simp [List.filter_cons, hx]
      rw [hfil, hfc, firstDedup]
      simp

/-- Tally keys appear in first-encounter order. -/
theorem keys_tally_firstDedup [DecidableEq α] (l : List α) :
    (tally l).map Prod.fst = firstDedup l := by
  have h := keys_foldl_bump l []
  simpa [tally] using h

/-! ## Glue lemmas for the firewall theorems -/

/-- A successful dictionary lookup is a membership. -/
theorem lookupD_mem [DecidableEq α] {m : List (α × β)} {a : α} {v : β}
    (h : lookupD m a = some v) : (a, v) ∈ m := by
  induction m with
  | nil => simp [lookupD] at h
  | cons p m ih =>
    obtain ⟨b, w⟩ := p
    by_cases hb : b = a
    · subst hb
      simp [lookupD] at h
      simp [h]
    · simp only [lookupD, if_neg hb] at h
      simp [ih h]

/-- Every record produced by the split loop comes from a key of the sorted
tally that splits into its two fields. -/
theorem toRecords_mem : ∀ (L : List (String × Nat)) (recs : List UfwEntry),
    toRecords L = .ok recs → ∀ e ∈ recs,
      ∃ k c, (k, c) ∈ L ∧ splitCh '|' k = [e.ip, e.port] ∧ e.count = c := by
  intro L
  induction L with
  | nil =>
    intro recs h e he
    simp only [toRecords, Except.ok.injEq] at h
    subst h
    simp at he
  | cons p rest ih =>
    intro recs h e he
    obtain ⟨k, c⟩ := p
    cases hsp : splitCh '|' k with
    | nil => rw [toRecords, hsp] at h; simp at h
    | cons ip tl =>
      cases tl with
      | nil => rw [toRecords, hsp] at h; simp at h
      | cons port tl2 =>
        cases tl2 with
        | cons z tl3 => rw [toRecords, hsp] at h; simp at h
        | nil =>
          rw [toRecords, hsp] at h
          cases hrec : toRecords rest with
          | error e2 => rw [hrec] at h; simp at h
          | ok l =>
            rw [hrec] at h
            simp only [Except.ok.injEq] at h
            subst h
            rcases List.mem_cons.mp he with rfl | hel
            · exact ⟨k, c, by simp, by simp [hsp], rfl⟩
            · obtain ⟨k2, c2, hk2, hs2, hc2⟩ := ih l hrec e hel
              exact ⟨k2, c2, by simp [hk2], hs2, hc2⟩

/-- When every key splits cleanly the loop succeeds and produces the
records in order. -/
theorem toRecords_map : ∀ (L : List (String × Nat)),
    (∀ p ∈ L, splitCh '|' p.1 = [barFst p.1, barSnd p.1]) →
    toRecords L = .ok (L.map (fun kc => UfwEntry.mk (barFst kc.1) (barSnd kc.1) kc.2)) := by
  intro L
  induction L with
  | nil => intro _; simp [toRecords]
  | cons p rest ih =>
    intro h
    obtain ⟨k, c⟩ := p
    have hk : splitCh '|' k = [barFst k, barSnd k] := h (k, c) (by simp)
    rw [toRecords, hk, ih (fun q hq => h q (by simp [hq]))]
    simp

/-- Occurrence counts after mapping: if every preimage of `k` under `f` is
a preimage of `q` under `g`, the count of `k` cannot exceed that of `q`. -/
theorem cntL_map_le {α : Type _} {β : Type _} {γ : Type _} [DecidableEq β] [DecidableEq γ]
    (f : α → β) (g : α → γ) (k : β) (q : γ) (l : List α)
    (h : ∀ a, f a = k → g a = q) :
    cntL k (l.map f) ≤ cntL q (l.map g) := by
  induction l with
  | nil => simp [cntL]
  | cons a l ih =>
    simp only [List.map_cons, cntL]
    by_cases hf : f a = k
    · have hg := h a hf
      simp only [hf, hg, if_pos rfl]
      omega
    · by_cases hg : g a = q
      · simp only [if_neg hf, if_pos hg]
        omega
      · simp only [if_neg hf, if_neg hg]
        omega

/-- C10 -/
theorem ufw_port_count_ge (lines : List String) (e : UfwEntry) (v : Nat)
    (he : e ∈ (getUfwStatsActive lines).top_blocked)
    (hv : lookupD (getUfwStatsActive lines).ports e.port = some v) :
    e.count ≤ v := by
  rcases hrec : toRecords ((sortDesc (tally ((lines.filterMap extractPair).map
      (fun b => b.1 ++ "|" ++ b.2)))).take 10) with e2 | recs
  · have hres : getUfwStatsActive lines = ufwDefault := by
      simp only [getUfwStatsActive]
      rw [hrec]
    rw [hres] at he
    simp [ufwDefault] at he
  · have hres : getUfwStatsActive lines
        = ⟨true, recs,
           (sortDesc (tally ((lines.filterMap extractPair).map Prod.snd))).take 10⟩ := by
      simp only [getUfwStatsActive]
      rw [hrec]
    rw [hres] at he hv
    obtain ⟨k, c, hkL, hsp, hcount⟩ := toRecords_mem _ recs hrec e he
    have hk2 : (k, c) ∈ tally ((lines.filterMap extractPair).map
        (fun b => b.1 ++ "|" ++ b.2)) :=
      (mem_sortDesc _ _).mp (List.mem_of_mem_take hkL)
    have hc := mem_tally_count hk2
    obtain ⟨hdata, hip, hport⟩ := splitCh_two k e.ip e.port hsp
    have hv2 : (e.port, v) ∈ tally ((lines.filterMap extractPair).map Prod.snd) :=
      (mem_sortDesc _ _).mp (List.mem_of_mem_take (lookupD_mem hv))
    have hvc := mem_tally_count hv2
    have hcmp : cntL k ((lines.filterMap extractPair).map (fun b => b.1 ++ "|" ++ b.2))
        ≤ cntL e.port ((lines.filterMap extractPair).map Prod.snd) := by
      apply cntL_map_le
      intro b hjoin
      have hbdata : (b.1 ++ "|" ++ b.2).data = b.1.data ++ '|' :: b.2.data := by
        simp [String.data_append]
      have hEq : b.1.data ++ '|' :: b.2.data = e.ip.data ++ '|' :: e.port.data := by
        rw [← hbdata, hjoin, hdata]
      obtain ⟨_, h2⟩ := bar_split_unique _ _ _ _ hEq hip hport
      exact congrArg String.mk h2
    omega

/-- C4 amended -/
theorem ufw_top_blocked :
    (∀ l : List (String × Nat), (sortDesc l).Perm l ∧ SortedDesc (sortDesc l)
      ∧ ∀ c : Nat, (sortDesc l).filter (fun p => p.2 = c) = l.filter (fun p => p.2 = c))
    ∧ (∀ (xs : List String) (a : String), cntA (tally xs) a = cntL a xs)
    ∧ (∀ xs : List String, (tally xs).map Prod.fst = firstDedup xs)
    ∧ (∀ lines : List String,
        (∀ b ∈ lines.filterMap extractPair, '|' ∉ b.1.data ∧ '|' ∉ b.2.data) →
        getUfwStats (.ok "Status: active") (.ok lines)
          = ⟨true,
             ((sortDesc (tally ((lines.filterMap extractPair).map
                 (fun b => b.1 ++ "|" ++ b.2)))).take 10).map
               (fun kc => UfwEntry.mk (barFst kc.1) (barSnd kc.1) kc.2),
             (sortDesc (tally ((lines.filterMap extractPair).map Prod.snd))).take 10⟩)
    ∧ getUfwStats (.ok "Status: active")
        (.ok ["[UFW BLOCK] SRC=1.2.3.4 DPT=22", "[UFW BLOCK] SRC=1.2.3.4 DPT=22",
              "[UFW BLOCK] SRC=1.2.3.4 DPT=22", "[UFW BLOCK] SRC=1.2.3.4 DPT=22",
              "[UFW BLOCK] SRC=1.2.3.4 DPT=22", "[UFW BLOCK] SRC=5.6.7.8 DPT=80",
              "[UFW BLOCK] SRC=5.6.7.8 DPT=80", "[UFW BLOCK] SRC=5.6.7.8 DPT=80"])
        = ⟨true, [⟨"1.2.3.4", "22", 5⟩, ⟨"5.6.7.8", "80", 3⟩], [("22", 5), ("80", 3)]⟩ := by
  refine ⟨fun l => ⟨perm_sortDesc l, sortedDesc_sortDesc l, fun c => filter_sortDesc c l⟩,
    fun xs a => cntA_tally xs a, fun xs => keys_tally_firstDedup xs, ?_, by decide⟩
  intro lines hbar
  have hact : getUfwStats (.ok "Status: active") (.ok lines) = getUfwStatsActive lines := by
    simp only [getUfwStats]
    rw [if_pos (by decide)]
  rw [hact]
  have hsplit : ∀ p ∈ (sortDesc (tally ((lines.filterMap extractPair).map
      (fun b => b.1 ++ "|" ++ b.2)))).take 10,
      splitCh '|' p.1 = [barFst p.1, barSnd p.1] := by
    intro p hp
    have hp2 : (p.1, p.2) ∈ tally ((lines.filterMap extractPair).map
        (fun b => b.1 ++ "|" ++ b.2)) :=
      (mem_sortDesc _ _).mp (List.mem_of_mem_take hp)
    have hkmem := key_mem_tally hp2
    obtain ⟨b, hbmem, hjoin⟩ := List.mem_map.mp hkmem
    obtain ⟨hb1, hb2⟩ := hbar b hbmem
    rw [← hjoin, splitCh_join b.1 b.2 hb1 hb2, barFst_join b.1 b.2 hb1,
      barSnd_join b.1 b.2 hb1]
  simp only [getUfwStatsActive]
  rw [toRecords_map _ hsplit]

/-- C4 witness -/
theorem ufw_top_blocked_witness :
    (∀ b ∈ ["SRC=9.9.9.9 DPT=443"].filterMap extractPair,
      '|' ∉ b.1.data ∧ '|' ∉ b.2.data)
    ∧ getUfwStats (.ok "Status: active") (.ok ["SRC=9.9.9.9 DPT=443"])
        = ⟨true,
           ((sortDesc (tally ((["SRC=9.9.9.9 DPT=443"].filterMap extractPair).map
               (fun b => b.1 ++ "|" ++ b.2)))).take 10).map
             (fun kc => UfwEntry.mk (barFst kc.1) (barSnd kc.1) kc.2),
           (sortDesc (tally ((["SRC=9.9.9.9 DPT=443"].filterMap extractPair).map
               Prod.snd))).take 10⟩ :=
  ⟨by decide, ufw_top_blocked.2.2.2.1 ["SRC=9.9.9.9 DPT=443"] (by decide)⟩

/-- C4 counterexample -/
theorem ufw_bar_counterexample :
    extractPair "[UFW BLOCK] SRC=1|2 DPT=22" = some ("1|2", "22")
    ∧ getUfwStats (.ok "Status: active") (.ok ["[UFW BLOCK] SRC=1|2 DPT=22"])
        = ⟨false, [], []⟩
    ∧ (UfwStats.mk false [] [] ≠ ⟨true, [⟨"1|2", "22", 1⟩], [("22", 1)]⟩) :=
  ⟨by decide, by decide, by decide⟩

/-- C10 witness -/
theorem ufw_port_count_ge_witness :
    (UfwEntry.mk "1.2.3.4" "22" 1
        ∈ (getUfwStatsActive ["SRC=1.2.3.4 DPT=22"]).top_blocked)
    ∧ lookupD (getUfwStatsActive ["SRC=1.2.3.4 DPT=22"]).ports
        (UfwEntry.mk "1.2.3.4" "22" 1).port = some 1
    ∧ (UfwEntry.mk "1.2.3.4" "22" 1).count ≤ 1 :=
  ⟨by decide, by decide,
    ufw_port_count_ge ["SRC=1.2.3.4 DPT=22"] (UfwEntry.mk "1.2.3.4" "22" 1) 1
      (by decide) (by decide)⟩
